import Mathlib

/-!
Shallow embedding of src/apprise/config/ConfigHTTP.py (class ConfigHTTP).

Python strings are modelled as List Char, byte payloads as List Nat,
Python dictionaries as ordered association lists (List (List Char × List Char))
together with the Python dict operations (first-occurrence lookup,
in-place update that replaces an existing key and appends a fresh one).

Pieces of the repository that are imported by ConfigHTTP.py but are not
under src/ (ConfigBase.parse_url's generic URL parsing, the urlencode /
quote helpers, the format constants of ..common) are modelled from the
spec; each such definition carries a doc comment saying so.
-/

/-- Convert a Lean string literal to the List Char model of a Python str. -/
def s2l (s : String) : List Char := s.data

/-- Bytes of a response body (Python bytes / py2 str). -/
abbrev ByteL := List Nat

/-- Ordered association list modelling a Python dict from str to str. -/
abbrev Dict := List (List Char × List Char)

/-- Python dict lookup: value of the key, if present (keys are unique in a
real dict; on a list we take the first occurrence). -/
def lookupL : Dict → List Char → Option (List Char)
  | [], _ => none
  | (k0, v0) :: t, k => if k0 = k then some v0 else lookupL t k

/-- Python dict assignment d[k] = v: replace the (first) existing binding of
k, otherwise append the new binding at the end (insertion order). -/
def setK : Dict → List Char → List Char → Dict
  | [], k, v => [(k, v)]
  | (k0, v0) :: t, k, v =>
      if k0 = k then (k0, v) :: t else (k0, v0) :: setK t k v

/-- Python dict.update(p) applied to m: bindings of p are written into m in
order, overriding existing keys and appending new ones. -/
def dictUpdate (m p : Dict) : Dict :=
  p.foldl (fun acc kv => setK acc kv.1 kv.2) m

/-- The keys of an association list are pairwise distinct (the invariant
every real Python dict satisfies). -/
def keysNodup (m : Dict) : Prop := (m.map Prod.fst).Nodup

instance (m : Dict) : Decidable (keysNodup m) := by
  unfold keysNodup; infer_instance

/-- Case-fold a header name the way requests' CaseInsensitiveDict does. -/
def lowerK (l : List Char) : List Char := l.map Char.toLower

/-- Case-insensitive lookup in a response-header mapping
(requests.Response.headers is a CaseInsensitiveDict). -/
def ciLookup : Dict → List Char → Option (List Char)
  | [], _ => none
  | (k0, v0) :: t, k => if lowerK k0 = lowerK k then some v0 else ciLookup t k

/-- l starts with the given pattern (used to model an anchored re.match). -/
def hasPfx : List Char → List Char → Bool
  | [], _ => true
  | _ :: _, [] => false
  | a :: as, b :: bs => a == b && hasPfx as bs

/-- re.match of MIME_IS_YAML = re.compile('(text|application)/(x-)?yaml', re.I):
an anchored, case-insensitive prefix match, hence exactly one of the four
lowered prefixes below. -/
def mimeIsYaml (ct : List Char) : Bool :=
  let t := lowerK ct
  hasPfx (s2l "text/yaml") t || hasPfx (s2l "text/x-yaml") t ||
  hasPfx (s2l "application/yaml") t || hasPfx (s2l "application/x-yaml") t

/-- re.match of MIME_IS_TEXT = re.compile('text/(plain|html)', re.I). -/
def mimeIsText (ct : List Char) : Bool :=
  let t := lowerK ct
  hasPfx (s2l "text/plain") t || hasPfx (s2l "text/html") t

/-- Modelled from the spec: the ConfigFormat constants of ..common
(`format_override: optional enum{YAML, TEXT, ...}`); the module is not
under src/.  The wire values are the lowercase names. -/
inductive ConfigFormat where
  | text
  | yaml
deriving DecidableEq, Repr

/-- Wire value of a ConfigFormat constant ('text' / 'yaml'). -/
def formatChars : ConfigFormat → List Char
  | .text => s2l "text"
  | .yaml => s2l "yaml"

/-- Modelled from the spec: parsing the format query value back into the
enum (ConfigBase.parse_url, not under src/, recognises the enum values). -/
def parseFormat (s : List Char) : Option ConfigFormat :=
  if s = s2l "text" then some ConfigFormat.text
  else if s = s2l "yaml" then some ConfigFormat.yaml
  else none

/-- Post-construction state of a ConfigHTTP object.  Fields host, port,
user, password, verify_certificate, encoding, config_format,
default_config_format and max_buffer_size are attributes installed by the
ConfigBase / URLBase constructors (not under src/, modelled from the spec's
Endpoint Descriptor); fullpath and headers are normalised by
ConfigHTTP.__init__ itself (fullpath defaults to "/" when not a string,
headers is a dict built once from the constructor argument). -/
structure ConfigHTTP where
  secure : Bool
  host : List Char
  port : Option Nat
  user : Option (List Char)
  password : Option (List Char)
  fullpath : List Char
  headers : Dict
  config_format : Option ConfigFormat
  default_config_format : Option ConfigFormat
  encoding : List Char
  verify_certificate : Bool
  max_buffer_size : Nat
deriving DecidableEq, Repr

/-- ConfigHTTP.max_error_buffer_size: number of error-body bytes kept for
debug logging. -/
def max_error_buffer_size : Nat := 2048

/-- self.schema, as set by __init__: 'https' if self.secure else 'http'. -/
def schemaStr (D : ConfigHTTP) : List Char :=
  if D.secure then s2l "https" else s2l "http"

/-- default_port of url(): 443 if self.secure else 80. -/
def defaultPort (secure : Bool) : Nat := if secure then 443 else 80

/-- Python truthiness of an optional string attribute (None and '' are
falsy). -/
def truthyS : Option (List Char) → Bool
  | none => false
  | some s => !s.isEmpty

/-- Unreserved characters that Python's quote / urlencode leave unescaped
(letters, digits, and '_', '.', '-', '~'). -/
def plainChar (c : Char) : Bool :=
  c.isAlphanum || c = '_' || c = '.' || c = '-' || c = '~'

/-- Upper-case hex digit of a value below 16, as emitted by %-escapes. -/
def hexDigit (n : Nat) : Char :=
  if n < 10 then Char.ofNat (48 + n) else Char.ofNat (55 + n)

/-- Numeric value of a hex digit character, if it is one. -/
def hexCharVal (c : Char) : Option Nat :=
  if '0' ≤ c ∧ c ≤ '9' then some (c.toNat - 48)
  else if 'A' ≤ c ∧ c ≤ 'F' then some (c.toNat - 55)
  else if 'a' ≤ c ∧ c ≤ 'f' then some (c.toNat - 87)
  else none

/-- Modelled from the spec: percent-encoding of one character, as performed
by the quote / urlencode helpers of the base URL module (not under src/):
unreserved characters pass through, anything else becomes %XX of its byte
value.  Multi-byte UTF-8 escapes are not modelled; every theorem below
that depends on decode-after-encode restricts itself to single-byte
(toNat < 256) characters. -/
def percentEncodeChar (c : Char) : List Char :=
  if plainChar c then [c]
  else ['%', hexDigit (c.toNat / 16 % 16), hexDigit (c.toNat % 16)]

/-- Modelled from the spec: percent-encoding of a whole string
(quote(s, safe='')). -/
def percentEncode (l : List Char) : List Char :=
  match l with
  | [] => []
  | c :: t => percentEncodeChar c ++ percentEncode t

/-- Modelled from the spec: percent-decoding as applied by the generic URL
parser to each query key and value before bucketing. -/
def percentDecode : List Char → List Char
  | [] => []
  | '%' :: h :: l :: rest2 =>
    (match hexCharVal h, hexCharVal l with
     | some a, some b => Char.ofNat (a * 16 + b) :: percentDecode rest2
     | _, _ => '%' :: percentDecode (h :: l :: rest2))
  | c :: rest => c :: percentDecode rest

/-- Little-endian decimal digits of n, driven by a structural fuel so
that the kernel can evaluate it on concrete ports. -/
def decDigits : Nat → Nat → List Nat
  | 0, _ => []
  | _ + 1, 0 => []
  | fuel + 1, n + 1 => ((n + 1) % 10) :: decDigits fuel ((n + 1) / 10)

/-- Decimal rendering of a number, as '{}'.format does ('0' for zero). -/
def natToChars (n : Nat) : List Char :=
  if n = 0 then ['0']
  else (decDigits n n).reverse.map (fun d => Char.ofNat (48 + d))

/-- Parse a non-empty all-digit string into a number. -/
def parseNatChars (l : List Char) : Option Nat :=
  if l.isEmpty then none
  else l.foldl
    (fun acc c => acc.bind (fun a =>
      if c.isDigit then some (a * 10 + (c.toNat - 48)) else none))
    (some 0)

/-- Join non-empty pieces with a single separator character (the shape
urlencode gives the query string). -/
def joinWith (c : Char) : List (List Char) → List Char
  | [] => []
  | [p] => p
  | p :: q :: ps => p ++ c :: joinWith c (q :: ps)

/-- The format entry of the query-argument dict: present iff a config
format is enforced on the object. -/
def fmtArgs (D : ConfigHTTP) : Dict :=
  match D.config_format with
  | some f => [(s2l "format", formatChars f)]
  | none => []

/-- The ordered query-argument dict built by url(): encoding first, then
format iff a config format is enforced, then every stored header under a
'+'-prefixed key (args.update({'+k': v})). -/
def urlArgs (D : ConfigHTTP) : Dict :=
  ([(s2l "encoding", D.encoding)] ++ fmtArgs D) ++
  D.headers.map (fun kv => ('+' :: kv.1, kv.2))

/-- Modelled from the spec: self.urlencode (base URL module, not under
src/) serialises the argument dict as percent-encoded k=v pairs joined
with '&'. -/
def urlencodeD (args : Dict) : List Char :=
  joinWith '&' (args.map (fun kv => percentEncode kv.1 ++ '=' :: percentEncode kv.2))

/-- The auth fragment of url(): 'user:password@' when both are truthy,
'user@' when only user is, '' otherwise; user and password go through
quote(..., safe=''). -/
def authPart (D : ConfigHTTP) : List Char :=
  if truthyS D.user && truthyS D.password then
    percentEncode (D.user.getD []) ++ ':' :: percentEncode (D.password.getD []) ++ ['@']
  else if truthyS D.user then
    percentEncode (D.user.getD []) ++ ['@']
  else []

/-- The port fragment of url(): '' if self.port is None or equals the
scheme's default port, else ':{port}'. -/
def portSegment (D : ConfigHTTP) : List Char :=
  match D.port with
  | none => []
  | some p => if p = defaultPort D.secure then [] else ':' :: natToChars p

/-- ConfigHTTP.url(): '{schema}://{auth}{hostname}{port}/?{args}'.  Note
that self.fullpath does not appear in the format string. -/
def url (D : ConfigHTTP) : List Char :=
  schemaStr D ++ s2l "://" ++ authPart D ++ D.host ++ portSegment D ++
    s2l "/?" ++ urlencodeD (urlArgs D)

/-- requests.RequestException, the only exception class the read() handler
catches (DNS failure, connect/read timeout, TLS failure, reset, ...). -/
inductive TransportError where
  | requestException
deriving DecidableEq, Repr

/-- A Python exception that read() does not catch and therefore lets
escape: KeyError from subscripting a missing header, TypeError from
comparing a str with an int (Python 3 semantics). -/
inductive PyExc where
  | keyError
  | typeError
deriving DecidableEq, Repr

instance {ε α : Type} [DecidableEq ε] [DecidableEq α] : DecidableEq (Except ε α) :=
  fun a b =>
    match a, b with
    | Except.error x, Except.error y =>
        decidable_of_iff (x = y) ⟨fun h => by rw [h], fun h => by injection h⟩
    | Except.error _, Except.ok _ => isFalse (fun h => Except.noConfusion h)
    | Except.ok _, Except.error _ => isFalse (fun h => Except.noConfusion h)
    | Except.ok x, Except.ok y =>
        decidable_of_iff (x = y) ⟨fun h => by rw [h], fun h => by injection h⟩

/-- The observable behaviour of the server for one call: either
requests.post raises a RequestException, or it returns a streamed response
whose body read (r.content) in turn either raises or yields bytes. -/
structure Response where
  status_code : Nat
  headers : Dict
  contentResult : Except TransportError ByteL
deriving DecidableEq, Repr

/-- Dynamic semantics of the Python comparison s > n between a str s (the
raw header value) and an int n, exactly as read() evaluates
r.headers['Content-Length'] > self.max_buffer_size with no conversion.
Under Python 3 such a mixed-type comparison always raises TypeError (it
never consults the numeric value of s; under Python 2 it would instead
yield True for every string).  The model follows Python 3. -/
def pyStrGtInt (_s : List Char) (_n : Nat) : Except PyExc Bool :=
  Except.error PyExc.typeError

/-- Everything one call to ConfigHTTP.read() does that the outside can
observe: the value it returns (or the exception it lets escape), how many
times r.close() ran, the object state afterwards, the headers passed to
requests.post, and the error-body slice captured for debug logging. -/
structure ReadOutcome where
  result : Except PyExc (Option ByteL)
  closes : Nat
  finalState : ConfigHTTP
  requestHeaders : Dict
  errorEcho : Option ByteL
deriving DecidableEq, Repr

/-- The success branch of read() after the content-length guard: store
r.content (which may raise, caught as RequestException and answered with a
plain return None and no r.close()), sniff the config format from
Content-Type when none is enforced, then fall out of the try block to the
final r.close() and return the stored response. -/
def readBody (D : ConfigHTTP) (reqH : Dict) (r : Response) : ReadOutcome :=
  match r.contentResult with
  | Except.error _ =>
      { result := Except.ok none, closes := 0, finalState := D,
        requestHeaders := reqH, errorEcho := none }
  | Except.ok body =>
      let content_type := (ciLookup r.headers (s2l "Content-Type")).getD
        (s2l "application/octet-stream")
      let D' :=
        if D.config_format = none ∧ content_type ≠ [] then
          if mimeIsYaml content_type then
            { D with default_config_format := some ConfigFormat.yaml }
          else if mimeIsText content_type then
            { D with default_config_format := some ConfigFormat.text }
          else D
        else D
      { result := Except.ok (some body), closes := 1, finalState := D',
        requestHeaders := reqH, errorEcho := none }

/-- The non-ok-status branch of read(): map the status code to a reason
string (pure, best effort), read up to max_error_buffer_size bytes of the
body for the debug log (r.content may raise mid-stream, caught by the
RequestException handler which returns None without closing), close the
connection and return None. -/
def readErrorStatus (D : ConfigHTTP) (reqH : Dict) (r : Response) : ReadOutcome :=
  if 0 < max_error_buffer_size then
    match r.contentResult with
    | Except.error _ =>
        { result := Except.ok none, closes := 0, finalState := D,
          requestHeaders := reqH, errorEcho := none }
    | Except.ok body =>
        { result := Except.ok none, closes := 1, finalState := D,
          requestHeaders := reqH,
          errorEcho := some (body.take max_error_buffer_size) }
  else
    { result := Except.ok none, closes := 1, finalState := D,
      requestHeaders := reqH, errorEcho := none }

/-- ConfigHTTP.read(): compose the request headers (User-Agent default,
then self.headers laid over it), call the throttle hook, post, and branch
on the response exactly as the source does.  `post` is the behaviour of
requests.post for this call: Except.error when the call itself raises (r
keeps its initial None, the handler returns None and no close is
possible), Except.ok r when a streamed response object was established. -/
def ConfigHTTP.read (D : ConfigHTTP) (app_id : List Char)
    (post : Except TransportError Response) : ReadOutcome :=
  let reqH := dictUpdate [(s2l "User-Agent", app_id)] D.headers
  match post with
  | Except.error _ =>
      { result := Except.ok none, closes := 0, finalState := D,
        requestHeaders := reqH, errorEcho := none }
  | Except.ok r =>
      if r.status_code ≠ 200 then
        readErrorStatus D reqH r
      else if 0 < D.max_buffer_size then
        match ciLookup r.headers (s2l "Content-Length") with
        | none =>
            { result := Except.error PyExc.keyError, closes := 0,
              finalState := D, requestHeaders := reqH, errorEcho := none }
        | some cl =>
            match pyStrGtInt cl D.max_buffer_size with
            | Except.error e =>
                { result := Except.error e, closes := 0, finalState := D,
                  requestHeaders := reqH, errorEcho := none }
            | Except.ok true =>
                { result := Except.ok none, closes := 1, finalState := D,
                  requestHeaders := reqH, errorEcho := none }
            | Except.ok false => readBody D reqH r
      else readBody D reqH r

/-- Modelled from the spec: the resolved format handed with the bytes to
the downstream parser — the enforced config_format when set, else the
(possibly just sniffed) default. -/
def resolvedFormat (D : ConfigHTTP) : Option ConfigFormat :=
  match D.config_format with
  | some f => some f
  | none => D.default_config_format

/-- Split a list at the first occurrence of c: some (before, after) when c
occurs, none otherwise. -/
def breakOnChar (c : Char) : List Char → Option (List Char × List Char)
  | [] => none
  | x :: xs =>
    if x = c then some ([], xs)
    else (breakOnChar c xs).map (fun p => (x :: p.1, p.2))

/-- Split a list on every occurrence of c (n separators give n+1 pieces). -/
def splitOnChar (c : Char) : List Char → List (List Char)
  | [] => [[]]
  | x :: xs =>
    let r := splitOnChar c xs
    if x = c then [] :: r
    else
      match r with
      | [] => [[x]]
      | h :: t => (x :: h) :: t

/-- The argument bundle ConfigBase.parse_url hands back for object
construction: generic URL components plus the three query buckets (qsd:
untagged keys, qsd-: keys that arrived with a leading '-', qsd+: keys
with a leading '+'), and, for ConfigHTTP, the final headers dict. -/
structure ParseResult where
  host : List Char
  port : Option Nat
  fullpath : List Char
  user : Option (List Char)
  password : Option (List Char)
  qsd : Dict
  qsdMinus : Dict
  qsdPlus : Dict
  format : Option ConfigFormat
  headers : Dict
deriving DecidableEq, Repr

/-- Modelled from the spec: the leading-sign bucketing of decoded query
pairs ('+k' to the plus bucket, '-k' to the minus bucket, anything else to
the plain bucket), each bucket a dict built in arrival order. -/
def bucketize (pairs : Dict) : Dict × Dict × Dict :=
  pairs.foldl
    (fun acc kv =>
      match kv.1 with
      | '+' :: k2 => (acc.1, acc.2.1, setK acc.2.2 k2 kv.2)
      | '-' :: k2 => (acc.1, setK acc.2.1 k2 kv.2, acc.2.2)
      | _ => (setK acc.1 kv.1 kv.2, acc.2.1, acc.2.2))
    ([], [], [])

/-- Decode one query pair: split at the first '=' (a pair without '='
keeps an empty value) and percent-decode key and value. -/
def parseQueryPair (s : List Char) : List Char × List Char :=
  match breakOnChar '=' s with
  | some (k, v) => (percentDecode k, percentDecode v)
  | none => (percentDecode s, [])

/-- Modelled from the spec: ConfigBase.parse_url's generic URL parsing (it
is not under src/; only its ConfigHTTP override is).  It decomposes
scheme://[user[:password]@]host[:port]/path?query, yields None when the
shape or the port number is invalid or the host is empty, splits the
query into pairs on '&' and buckets them by the leading-sign convention,
and recognises the format override among the plain query keys. -/
def parseUrlBase (u : List Char) : Option ParseResult :=
  (breakOnChar ':' u).bind (fun sr =>
    match sr.2 with
    | '/' :: '/' :: rest2 =>
      (breakOnChar '/' rest2).bind (fun ar =>
        let authority := ar.1
        let pq := match breakOnChar '?' ar.2 with
          | some (p, q) => (p, some q)
          | none => (ar.2, none)
        let userinfoHostport := match breakOnChar '@' authority with
          | some (ui, hp) => (some ui, hp)
          | none => (none, authority)
        let userPass : Option (List Char) × Option (List Char) :=
          match userinfoHostport.1 with
          | none => (none, none)
          | some ui =>
            match breakOnChar ':' ui with
            | some (us, pw) => (some (percentDecode us), some (percentDecode pw))
            | none => (some (percentDecode ui), none)
        let hostPort : List Char × Option (Option Nat) :=
          match breakOnChar ':' userinfoHostport.2 with
          | some (h, ps) => (h, (parseNatChars ps).map some)
          | none => (userinfoHostport.2, some none)
        match hostPort.2 with
        | none => none
        | some port =>
          if hostPort.1 = [] then none
          else
            let pairs := match pq.2 with
              | none => []
              | some q => if q = [] then [] else (splitOnChar '&' q).map parseQueryPair
            let buckets := bucketize pairs
            some
              { host := hostPort.1, port := port, fullpath := '/' :: pq.1,
                user := userPass.1, password := userPass.2,
                qsd := buckets.1, qsdMinus := buckets.2.1,
                qsdPlus := buckets.2.2,
                format := (lookupL buckets.1 (s2l "format")).bind parseFormat,
                headers := [] })
    | _ => none)

/-- The header overlay ConfigHTTP.parse_url performs on the base results:
results['headers'] = results['qsd-']; results['headers'].update(results['qsd+']). -/
def mergeHeaders (minus plus : Dict) : Dict := dictUpdate minus plus

/-- ConfigHTTP.parse_url: the base parse (passed through unchanged when it
fails), with the final headers dict set to the minus bucket overlaid by
the plus bucket. -/
def parse_url (u : List Char) : Option ParseResult :=
  (parseUrlBase u).map (fun R => { R with headers := mergeHeaders R.qsdMinus R.qsdPlus })

theorem lookupL_setK (m : Dict) (k v k' : List Char) :
    lookupL (setK m k v) k' = if k = k' then some v else lookupL m k' := by
  induction m with
  | nil =>
    by_cases h : k = k' <;> simp [setK, lookupL, h]
  | cons kv t ih =>
    obtain ⟨k0, v0⟩ := kv
    by_cases h0 : k0 = k
    · subst h0
      by_cases h : k0 = k' <;> simp [setK, lookupL, h]
    · by_cases h : k0 = k'
      · subst h
        have : ¬ k = k0 := fun he => h0 he.symm
        simp [setK, lookupL, h0, this]
      · simp [setK, lookupL, h0, h, ih]

theorem lookupL_append (m n : Dict) (k : List Char) :
    lookupL (m ++ n) k = (lookupL m k).orElse (fun _ => lookupL n k) := by
  induction m with
  | nil => simp [lookupL]
  | cons kv t ih =>
    obtain ⟨k0, v0⟩ := kv
    by_cases h : k0 = k <;> simp [lookupL, h, ih]

theorem lookupL_eq_none_of_not_mem_keys (m : Dict) (k : List Char)
    (h : k ∉ m.map Prod.fst) : lookupL m k = none := by
  induction m with
  | nil => rfl
  | cons kv t ih =>
    obtain ⟨k0, v0⟩ := kv
    simp only [List.map_cons, List.mem_cons] at h
    push_neg at h
    simp [lookupL, Ne.symm h.1, ih h.2]

theorem setK_of_lookup_none (m : Dict) (k v : List Char)
    (h : lookupL m k = none) : setK m k v = m ++ [(k, v)] := by
  induction m with
  | nil => rfl
  | cons kv t ih =>
    obtain ⟨k0, v0⟩ := kv
    by_cases h0 : k0 = k
    · simp [lookupL, h0] at h
    · simp only [lookupL, h0, if_false] at h
      simp [setK, h0, ih h]

theorem dictUpdate_cons (m : Dict) (k v : List Char) (p : Dict) :
    dictUpdate m ((k, v) :: p) = dictUpdate (setK m k v) p := rfl

/-- Updating a dict with bindings whose keys are all fresh and pairwise
distinct appends them in order. -/
theorem dictUpdate_append (m p : Dict) (hd : ∀ kv ∈ p, lookupL m kv.1 = none)
    (hp : keysNodup p) : dictUpdate m p = m ++ p := by
  induction p generalizing m with
  | nil => simp [dictUpdate]
  | cons kv t ih =>
    obtain ⟨k, v⟩ := kv
    have hm : lookupL m k = none := hd (k, v) (List.mem_cons_self _ _)
    have hset : setK m k v = m ++ [(k, v)] := setK_of_lookup_none m k v hm
    have hnodup : keysNodup t := by
      simpa [keysNodup] using (List.nodup_cons.mp hp).2
    have hknot : k ∉ t.map Prod.fst := by
      simpa [keysNodup] using (List.nodup_cons.mp hp).1
    have hd' : ∀ kv ∈ t, lookupL (m ++ [(k, v)]) kv.1 = none := by
      intro kv hkv
      rw [lookupL_append]
      have h1 : lookupL m kv.1 = none := hd kv (List.mem_cons_of_mem _ hkv)
      have h2 : lookupL [(k, v)] kv.1 = none := by
        have : kv.1 ≠ k := by
          intro he
          exact hknot (he ▸ List.mem_map_of_mem Prod.fst hkv)
        simp [lookupL, Ne.symm this]
      simp [h1, h2]
    rw [dictUpdate_cons, hset, ih _ hd' hnodup, List.append_assoc]
    rfl

/-- Python dict.update from an empty dict reproduces the update source. -/
theorem dictUpdate_nil_left (p : Dict) (hp : keysNodup p) :
    dictUpdate [] p = p := by
  simpa using dictUpdate_append [] p (by intro kv _; rfl) hp

/-- After the overlay, the override bucket wins on every key collision and
the default bucket fills the rest (the two-map merge contract). -/
theorem lookupL_dictUpdate (m p : Dict) (hp : keysNodup p) (k : List Char) :
    lookupL (dictUpdate m p) k =
      ((lookupL p k).orElse (fun _ => lookupL m k)) := by
  induction p generalizing m with
  | nil => simp [dictUpdate, lookupL]
  | cons kv t ih =>
    obtain ⟨k0, v0⟩ := kv
    have hnodup : keysNodup t := by
      simpa [keysNodup] using (List.nodup_cons.mp hp).2
    have hknot : k0 ∉ t.map Prod.fst := by
      simpa [keysNodup] using (List.nodup_cons.mp hp).1
    rw [dictUpdate_cons, ih _ hnodup]
    by_cases h : k0 = k
    · subst h
      have : lookupL t k0 = none := lookupL_eq_none_of_not_mem_keys t k0 hknot
      simp [lookupL, this, lookupL_setK]
    · simp [lookupL, h, lookupL_setK]

theorem plainChar_ne_percent {c : Char} (h : plainChar c = true) : c ≠ '%' := by
  intro he
  subst he
  simp [plainChar] at h

theorem percentDecode_cons_ne {c : Char} (hc : c ≠ '%') (rest : List Char) :
    percentDecode (c :: rest) = c :: percentDecode rest := by
  match rest with
  | [] => simp [percentDecode, hc]
  | [h] => simp [percentDecode, hc]
  | h :: l :: r2 => simp [percentDecode, hc]

theorem hexCharVal_hexDigit {m : Nat} (hm : m < 16) :
    hexCharVal (hexDigit m) = some m := by
  interval_cases m <;> decide

theorem plainChar_hexDigit {m : Nat} (hm : m < 16) :
    plainChar (hexDigit m) = true := by
  interval_cases m <;> decide

/-- Characters that percent-encoding emits: unreserved ones and '%'. -/
theorem percentEncode_chars (l : List Char) :
    ∀ c ∈ percentEncode l, plainChar c = true ∨ c = '%' := by
  induction l with
  | nil => intro c hc; simp [percentEncode] at hc
  | cons a t ih =>
    intro c hc
    simp only [percentEncode, List.mem_append] at hc
    rcases hc with hc | hc
    · by_cases hp : plainChar a
      · simp [percentEncodeChar, hp] at hc
        subst hc
        exact Or.inl hp
      · simp [percentEncodeChar, hp] at hc
        rcases hc with hc | hc | hc
        · exact Or.inr hc
        · subst hc
          exact Or.inl (plainChar_hexDigit (Nat.mod_lt _ (by norm_num)))
        · subst hc
          exact Or.inl (plainChar_hexDigit (Nat.mod_lt _ (by norm_num)))
    · exact ih c hc

/-- A delimiter (a character that is neither unreserved nor '%') never
occurs in percent-encoded output. -/
theorem not_mem_percentEncode {sep : Char} (hs : plainChar sep = false)
    (hp : sep ≠ '%') (l : List Char) : sep ∉ percentEncode l := by
  intro hmem
  rcases percentEncode_chars l sep hmem with h | h
  · rw [hs] at h; cases h
  · exact hp h

/-- Encoding is the identity on all-unreserved strings. -/
theorem percentEncode_plain (l : List Char) (h : ∀ c ∈ l, plainChar c = true) :
    percentEncode l = l := by
  induction l with
  | nil => rfl
  | cons a t ih =>
    have ha : plainChar a = true := h a (List.mem_cons_self _ _)
    simp [percentEncode, percentEncodeChar, ha,
      ih (fun c hc => h c (List.mem_cons_of_mem _ hc))]

/-- Decoding inverts encoding for single-byte characters. -/
theorem percentDecode_percentEncode (l : List Char)
    (h : ∀ c ∈ l, c.toNat < 256) :
    percentDecode (percentEncode l) = l := by
  induction l with
  | nil => rfl
  | cons a t ih =>
    have hrest := ih (fun c hc => h c (List.mem_cons_of_mem _ hc))
    by_cases hp : plainChar a
    · have hne : a ≠ '%' := plainChar_ne_percent hp
      simp [percentEncode, percentEncodeChar, hp,
        percentDecode_cons_ne hne, hrest]
    · have ha : a.toNat < 256 := h a (List.mem_cons_self _ _)
      have h1 : hexCharVal (hexDigit (a.toNat / 16 % 16)) = some (a.toNat / 16 % 16) :=
        hexCharVal_hexDigit (Nat.mod_lt _ (by norm_num))
      have h2 : hexCharVal (hexDigit (a.toNat % 16)) = some (a.toNat % 16) :=
        hexCharVal_hexDigit (Nat.mod_lt _ (by norm_num))
      simp only [percentEncode, percentEncodeChar, hp, Bool.false_eq_true,
        if_false, List.cons_append, List.nil_append, percentDecode, h1, h2]
      have hv : a.toNat / 16 % 16 * 16 + a.toNat % 16 = a.toNat := by omega
      rw [hv, Char.ofNat_toNat, hrest]

theorem breakOnChar_not_mem {c : Char} {l : List Char} (h : c ∉ l) :
    breakOnChar c l = none := by
  induction l with
  | nil => rfl
  | cons x xs ih =>
    simp only [List.mem_cons] at h
    push_neg at h
    simp [breakOnChar, Ne.symm h.1, ih h.2]

theorem breakOnChar_append {c : Char} {a : List Char} (h : c ∉ a)
    (b : List Char) : breakOnChar c (a ++ c :: b) = some (a, b) := by
  induction a with
  | nil => simp [breakOnChar]
  | cons x xs ih =>
    simp only [List.mem_cons] at h
    push_neg at h
    simp [breakOnChar, Ne.symm h.1, ih h.2]

theorem splitOnChar_ne_nil (c : Char) (l : List Char) : splitOnChar c l ≠ [] := by
  cases l with
  | nil => simp [splitOnChar]
  | cons x xs =>
    simp only [splitOnChar]
    by_cases h : x = c
    · simp [h]
    · simp only [h, if_false]
      match splitOnChar c xs with
      | [] => simp
      | h0 :: t0 => simp

theorem splitOnChar_not_mem {c : Char} {l : List Char} (h : c ∉ l) :
    splitOnChar c l = [l] := by
  induction l with
  | nil => rfl
  | cons x xs ih =>
    simp only [List.mem_cons] at h
    push_neg at h
    simp [splitOnChar, Ne.symm h.1, ih h.2]

theorem splitOnChar_append {c : Char} {a : List Char} (h : c ∉ a)
    (b : List Char) : splitOnChar c (a ++ c :: b) = a :: splitOnChar c b := by
  induction a with
  | nil => simp [splitOnChar]
  | cons x xs ih =>
    simp only [List.mem_cons] at h
    push_neg at h
    have ihh := ih h.2
    simp only [List.cons_append, splitOnChar, Ne.symm h.1, if_false,
      List.append_eq]
    rw [ihh]

/-- Splitting undoes joining when no piece contains the separator. -/
theorem splitOnChar_joinWith (c : Char) (parts : List (List Char))
    (hne : parts ≠ []) (h : ∀ p ∈ parts, c ∉ p) :
    splitOnChar c (joinWith c parts) = parts := by
  induction parts with
  | nil => cases hne rfl
  | cons p ps ih =>
    cases ps with
    | nil =>
      simpa [joinWith] using splitOnChar_not_mem (h p (List.mem_cons_self _ _))
    | cons q qs =>
      have hp : c ∉ p := h p (List.mem_cons_self _ _)
      have hrest : ∀ r ∈ q :: qs, c ∉ r :=
        fun r hr => h r (List.mem_cons_of_mem _ hr)
      simp only [joinWith, splitOnChar_append hp, ih (by simp) hrest]

theorem digit_char_facts {d : Nat} (hd : d < 10) :
    (Char.ofNat (48 + d)).isDigit = true ∧ (Char.ofNat (48 + d)).toNat - 48 = d ∧
    plainChar (Char.ofNat (48 + d)) = true := by
  interval_cases d <;> exact ⟨by decide, by decide, by decide⟩

theorem decDigits_eq (fuel n : Nat) (h : n ≤ fuel) :
    decDigits fuel n = Nat.digits 10 n := by
  induction fuel generalizing n with
  | zero =>
    have : n = 0 := by omega
    subst this
    simp [decDigits]
  | succ f ih =>
    cases n with
    | zero => simp [decDigits]
    | succ m =>
      rw [decDigits, Nat.digits_def' (by norm_num : (1 : ℕ) < 10)
        (Nat.succ_pos m), ih _ (by omega)]

theorem natToChars_eq (n : Nat) (hn : n ≠ 0) :
    natToChars n = (Nat.digits 10 n).reverse.map (fun d => Char.ofNat (48 + d)) := by
  rw [natToChars, if_neg hn, decDigits_eq n n le_rfl]

theorem natToChars_plain (n : Nat) : ∀ c ∈ natToChars n, plainChar c = true := by
  intro c hc
  by_cases hn : n = 0
  · subst hn
    simp [natToChars] at hc
    subst hc
    decide
  · rw [natToChars_eq n hn] at hc
    simp only [List.mem_map, List.mem_reverse] at hc
    obtain ⟨d, hd, rfl⟩ := hc
    exact (digit_char_facts (Nat.digits_lt_base (by norm_num) hd)).2.2

theorem parse_fold_step (ds : List Nat) (hds : ∀ d ∈ ds, d < 10) (a : Nat) :
    (ds.map (fun d => Char.ofNat (48 + d))).foldl
      (fun acc c => acc.bind (fun x =>
        if c.isDigit then some (x * 10 + (c.toNat - 48)) else none))
      (some a) =
    some (ds.foldl (fun x d => x * 10 + d) a) := by
  induction ds generalizing a with
  | nil => rfl
  | cons d t ih =>
    have hd : d < 10 := hds d (List.mem_cons_self _ _)
    obtain ⟨h1, h2, _⟩ := digit_char_facts hd
    simp only [List.map_cons, List.foldl_cons, Option.bind_some, h1, if_true, h2]
    exact ih (fun x hx => hds x (List.mem_cons_of_mem _ hx)) _

theorem foldl_horner (ds : List Nat) :
    ds.reverse.foldl (fun x d => x * 10 + d) 0 = Nat.ofDigits 10 ds := by
  induction ds with
  | nil => rfl
  | cons d t ih =>
    rw [List.reverse_cons, List.foldl_append, ih, Nat.ofDigits_cons]
    simp [List.foldl]
    ring

/-- Parsing inverts the decimal rendering. -/
theorem parseNatChars_natToChars (n : Nat) :
    parseNatChars (natToChars n) = some n := by
  by_cases hn : n = 0
  · subst hn; decide
  · have hne : Nat.digits 10 n ≠ [] := Nat.digits_ne_nil_iff_ne_zero.mpr hn
    have hlt : ∀ d ∈ (Nat.digits 10 n).reverse, d < 10 := by
      intro d hd
      exact Nat.digits_lt_base (by norm_num) (List.mem_reverse.mp hd)
    have hempty : natToChars n ≠ [] := by
      rw [natToChars_eq n hn]
      intro he
      simp at he
      exact hne he
    simp only [parseNatChars, List.isEmpty_iff, hempty, if_false,
      natToChars_eq n hn]
    rw [parse_fold_step _ hlt 0, foldl_horner, Nat.ofDigits_digits,
      if_neg (by simpa using hne)]

/-- The header dict read() passes to requests.post, on every path: the
User-Agent default overlaid by the stored headers. -/
theorem read_requestHeaders (D : ConfigHTTP) (a : List Char)
    (post : Except TransportError Response) :
    (ConfigHTTP.read D a post).requestHeaders =
      dictUpdate [(s2l "User-Agent", a)] D.headers := by
  cases post with
  | error e => rfl
  | ok r =>
    unfold ConfigHTTP.read readErrorStatus readBody
    repeat' split
    all_goals rfl

/-- The only attribute read() ever assigns is default_config_format, and
only when no config_format is enforced. -/
theorem read_finalState (D : ConfigHTTP) (a : List Char)
    (post : Except TransportError Response) :
    (ConfigHTTP.read D a post).finalState = D ∨
      (D.config_format = none ∧
        ((ConfigHTTP.read D a post).finalState =
            { D with default_config_format := some ConfigFormat.yaml } ∨
         (ConfigHTTP.read D a post).finalState =
            { D with default_config_format := some ConfigFormat.text })) := by
  cases post with
  | error e => exact Or.inl rfl
  | ok r =>
    unfold ConfigHTTP.read readErrorStatus readBody
    dsimp only
    repeat' split
    all_goals try exact Or.inl rfl
    all_goals first
      | (rename_i hcond hfmt
         exact Or.inr ⟨hcond.1, Or.inl rfl⟩)
      | (rename_i hcond hny hft
         exact Or.inr ⟨hcond.1, Or.inr rfl⟩)

theorem not_mem_of_plain {sep : Char} {l : List Char}
    (hs : plainChar sep = false) (h : ∀ c ∈ l, plainChar c = true) :
    sep ∉ l := by
  intro hm
  rw [h sep hm] at hs
  cases hs

theorem amp_not_mem_piece (k v : List Char) :
    '&' ∉ percentEncode k ++ '=' :: percentEncode v := by
  intro hm
  rcases List.mem_append.mp hm with hm | hm
  · exact not_mem_percentEncode (by decide) (by decide) k hm
  · rcases List.mem_cons.mp hm with hm | hm
    · cases hm
    · exact not_mem_percentEncode (by decide) (by decide) v hm

theorem parseQueryPair_piece (k v : List Char) :
    parseQueryPair (percentEncode k ++ '=' :: percentEncode v) =
      (percentDecode (percentEncode k), percentDecode (percentEncode v)) := by
  rw [parseQueryPair,
    breakOnChar_append (not_mem_percentEncode (by decide) (by decide) k) _]

/-- Splitting the urlencoded query on '&' and decoding every pair recovers
the argument dict (the values still carry one decode-encode round trip,
removed later under the relevant character hypotheses). -/
theorem query_split_decode (args : Dict) (hne : args ≠ []) :
    (splitOnChar '&' (urlencodeD args)).map parseQueryPair =
      args.map (fun kv =>
        (percentDecode (percentEncode kv.1), percentDecode (percentEncode kv.2))) := by
  have hsplit :
      splitOnChar '&' (urlencodeD args) =
        args.map (fun kv => percentEncode kv.1 ++ '=' :: percentEncode kv.2) := by
    rw [urlencodeD]
    refine splitOnChar_joinWith _ _ (by simpa using hne) ?_
    intro p hp
    obtain ⟨kv, _, rfl⟩ := List.mem_map.mp hp
    exact amp_not_mem_piece kv.1 kv.2
  rw [hsplit, List.map_map]
  exact List.map_congr_left (fun kv _ => parseQueryPair_piece kv.1 kv.2)

/-- A query key that carries no leading sign ('+' or '-'). -/
def notSigned : List Char → Bool
  | '+' :: _ => false
  | '-' :: _ => false
  | _ => true

theorem bucketize_fold_unsigned (base : Dict)
    (hb : ∀ kv ∈ base, notSigned kv.1 = true) :
    ∀ acc : Dict × Dict × Dict,
      base.foldl
        (fun acc kv =>
          match kv.1 with
          | '+' :: k2 => (acc.1, acc.2.1, setK acc.2.2 k2 kv.2)
          | '-' :: k2 => (acc.1, setK acc.2.1 k2 kv.2, acc.2.2)
          | _ => (setK acc.1 kv.1 kv.2, acc.2.1, acc.2.2)) acc =
      (dictUpdate acc.1 base, acc.2.1, acc.2.2) := by
  induction base with
  | nil => intro acc; rfl
  | cons kv t ih =>
    intro acc
    have hkv : notSigned kv.1 = true := hb kv (List.mem_cons_self _ _)
    have hstep :
        (match kv.1 with
          | '+' :: k2 => (acc.1, acc.2.1, setK acc.2.2 k2 kv.2)
          | '-' :: k2 => (acc.1, setK acc.2.1 k2 kv.2, acc.2.2)
          | _ => (setK acc.1 kv.1 kv.2, acc.2.1, acc.2.2)) =
        ((setK acc.1 kv.1 kv.2, acc.2.1, acc.2.2) : Dict × Dict × Dict) := by
      split
      · rename_i heq
        rw [heq] at hkv
        simp [notSigned] at hkv
      · rename_i heq
        rw [heq] at hkv
        simp [notSigned] at hkv
      · rfl
    rw [List.foldl_cons, hstep, ih (fun x hx => hb x (List.mem_cons_of_mem _ hx))]
    rfl

theorem bucketize_fold_plus (src : Dict) :
    ∀ acc : Dict × Dict × Dict,
      ((src.map (fun kv => (('+' :: kv.1 : List Char), kv.2))).foldl
        (fun acc kv =>
          match kv.1 with
          | '+' :: k2 => (acc.1, acc.2.1, setK acc.2.2 k2 kv.2)
          | '-' :: k2 => (acc.1, setK acc.2.1 k2 kv.2, acc.2.2)
          | _ => (setK acc.1 kv.1 kv.2, acc.2.1, acc.2.2)) acc) =
      (acc.1, acc.2.1, dictUpdate acc.2.2 src) := by
  induction src with
  | nil => intro acc; rfl
  | cons kv t ih =>
    intro acc
    rw [List.map_cons, List.foldl_cons, ih]
    rfl

/-- The bucketing of a decoded query of the canonical shape: unsigned base
pairs land in qsd, the '+'-prefixed header pairs land in qsd+, nothing
lands in qsd-. -/
theorem bucketize_shape (base src : Dict)
    (hb : ∀ kv ∈ base, notSigned kv.1 = true) :
    bucketize (base ++ src.map (fun kv => ('+' :: kv.1, kv.2))) =
      (dictUpdate [] base, [], dictUpdate [] src) := by
  rw [bucketize, List.foldl_append, bucketize_fold_unsigned base hb,
    bucketize_fold_plus src]

theorem schemaStr_no_colon (D : ConfigHTTP) : ':' ∉ schemaStr D := by
  cases hs : D.secure <;> simp [schemaStr, hs] <;> decide

theorem authPart_no_sep {sep : Char} (D : ConfigHTTP)
    (h1 : plainChar sep = false) (h2 : sep ≠ '%') (h3 : sep ≠ ':')
    (h4 : sep ≠ '@') : sep ∉ authPart D := by
  have hU : sep ∉ percentEncode (D.user.getD []) :=
    not_mem_percentEncode h1 h2 _
  have hP : sep ∉ percentEncode (D.password.getD []) :=
    not_mem_percentEncode h1 h2 _
  intro hm
  rw [authPart] at hm
  split at hm
  · simp only [List.mem_append, List.mem_cons, List.not_mem_nil, or_false,
      or_assoc] at hm
    rcases hm with hm | hm | hm | hm
    exacts [hU hm, h3 hm, hP hm, h4 hm]
  · split at hm
    · simp only [List.mem_append, List.mem_cons, List.not_mem_nil,
        or_false] at hm
      rcases hm with hm | hm
      exacts [hU hm, h4 hm]
    · cases hm

theorem portSegment_no_sep {sep : Char} (D : ConfigHTTP)
    (h1 : plainChar sep = false) (h3 : sep ≠ ':') : sep ∉ portSegment D := by
  intro hm
  rw [portSegment] at hm
  split at hm
  · cases hm
  · split at hm
    · cases hm
    · rcases List.mem_cons.mp hm with hm | hm
      · exact h3 hm
      · exact not_mem_of_plain h1 (natToChars_plain _) hm

theorem fmtArgs_keys_notSigned (D : ConfigHTTP) :
    ∀ kv ∈ fmtArgs D, notSigned kv.1 = true := by
  intro kv hkv
  rw [fmtArgs] at hkv
  cases hf : D.config_format with
  | none =>
    rw [hf] at hkv
    cases hkv
  | some f =>
    rw [hf] at hkv
    rcases List.mem_cons.mp hkv with h | h
    · subst h
      show notSigned (s2l "format") = true
      decide
    · cases h

theorem fmtArgs_decode_id (D : ConfigHTTP) :
    (fmtArgs D).map (fun kv =>
        (percentDecode (percentEncode kv.1), percentDecode (percentEncode kv.2))) =
      fmtArgs D := by
  rw [fmtArgs]
  cases hf : D.config_format with
  | none => rfl
  | some f => cases f <;> decide

theorem fmtArgs_lookup_format (D : ConfigHTTP) :
    lookupL (fmtArgs D) (s2l "format") = (D.config_format).map formatChars := by
  rw [fmtArgs]
  cases hf : D.config_format with
  | none => rfl
  | some f => rfl

theorem parseFormat_formatChars (f : ConfigFormat) :
    parseFormat (formatChars f) = some f := by
  cases f <;> decide

/-- The whole decoded query of a canonical URL, in arrival order. -/
theorem query_decoded (D : ConfigHTTP)
    (hhk : ∀ kv ∈ D.headers,
      (∀ c ∈ kv.1, c.toNat < 256) ∧ (∀ c ∈ kv.2, c.toNat < 256)) :
    (splitOnChar '&' (urlencodeD (urlArgs D))).map parseQueryPair =
      ((s2l "encoding", percentDecode (percentEncode D.encoding)) :: fmtArgs D) ++
        D.headers.map (fun kv => ('+' :: kv.1, kv.2)) := by
  rw [query_split_decode _ (by simp [urlArgs])]
  rw [urlArgs, List.map_append, List.map_append, List.map_map]
  have h1 : List.map (fun kv =>
      (percentDecode (percentEncode kv.1), percentDecode (percentEncode kv.2)))
      [(s2l "encoding", D.encoding)] =
      [(s2l "encoding", percentDecode (percentEncode D.encoding))] := by
    have he : percentDecode (percentEncode (s2l "encoding")) = s2l "encoding" :=
      percentDecode_percentEncode _ (by decide)
    simp [he]
  rw [h1, fmtArgs_decode_id, List.singleton_append]
  congr 1
  refine List.map_congr_left ?_
  intro kv hkv
  have hk : ∀ c ∈ ('+' :: kv.1 : List Char), c.toNat < 256 := by
    intro c hc
    rcases List.mem_cons.mp hc with hc | hc
    · subst hc; decide
    · exact (hhk kv hkv).1 c hc
  simp only [Function.comp]
  rw [percentDecode_percentEncode _ hk,
    percentDecode_percentEncode _ (hhk kv hkv).2]

theorem some_bind_eq {α β : Type} (a : α) (f : α → Option β) :
    (some a).bind f = f a := rfl

theorem some_map_eq {α β : Type} (a : α) (f : α → β) :
    (some a).map f = some (f a) := rfl

theorem joinWith_cons_ne_nil {c : Char} {p : List Char} (hp : p ≠ [])
    (ps : List (List Char)) : joinWith c (p :: ps) ≠ [] := by
  cases ps with
  | nil => simpa [joinWith] using hp
  | cons q qs => simp [joinWith]

theorem urlencodeD_urlArgs_ne_nil (D : ConfigHTTP) :
    urlencodeD (urlArgs D) ≠ [] := by
  rw [urlencodeD, urlArgs]
  rw [List.singleton_append, List.cons_append, List.map_cons]
  exact joinWith_cons_ne_nil (by simp) _

theorem authPart_at_split (D : ConfigHTTP) (ht : truthyS D.user = true) :
    ∃ U, authPart D = U ++ ['@'] ∧ '@' ∉ U := by
  have hU : ('@' : Char) ∉ percentEncode (D.user.getD []) :=
    not_mem_percentEncode (by decide) (by decide) _
  have hP : ('@' : Char) ∉ percentEncode (D.password.getD []) :=
    not_mem_percentEncode (by decide) (by decide) _
  by_cases hpw : truthyS D.password = true
  · refine ⟨percentEncode (D.user.getD []) ++ ':' :: percentEncode (D.password.getD []),
      ?_, ?_⟩
    · rw [authPart, if_pos (by rw [ht, hpw]; rfl)]
    · intro hm
      rcases List.mem_append.mp hm with hm | hm
      · exact hU hm
      · rcases List.mem_cons.mp hm with hm | hm
        · cases hm
        · exact hP hm
  · refine ⟨percentEncode (D.user.getD []), ?_, hU⟩
    rw [authPart]
    rw [if_neg (by rw [ht]; simpa using hpw), if_pos ht]

theorem authPart_empty (D : ConfigHTTP) (ht : truthyS D.user = false) :
    authPart D = [] := by
  rw [authPart, if_neg (by rw [ht]; simp), if_neg (by rw [ht]; simp)]

/-- C4 (amended): for a state whose host is a non-empty unreserved-character
string and whose header keys and values are single-byte strings with
distinct keys, decoding the canonical URL reproduces the host, the merged
header set and the format override; the path always decodes to '/' (url()
never emits self.fullpath), and the port is reproduced exactly when it
differs from the scheme default, the default port decoding as absent. -/
theorem parse_url_of_url (D : ConfigHTTP)
    (hhost1 : D.host ≠ [])
    (hhost2 : ∀ c ∈ D.host, plainChar c = true)
    (hhk : ∀ kv ∈ D.headers,
      (∀ c ∈ kv.1, c.toNat < 256) ∧ (∀ c ∈ kv.2, c.toNat < 256))
    (hnd : keysNodup D.headers) :
    (parse_url (url D)).map (fun R =>
        (R.host, R.headers, R.format, R.fullpath, R.port)) =
      some (D.host, D.headers, D.config_format, ['/'],
        D.port.bind (fun p => if p = defaultPort D.secure then none else some p)) := by
  have hqne : urlencodeD (urlArgs D) ≠ [] := urlencodeD_urlArgs_ne_nil D
  have hpairs := query_decoded D hhk
  have hbase : ∀ kv ∈ ((s2l "encoding", percentDecode (percentEncode D.encoding)) ::
      fmtArgs D), notSigned kv.1 = true := by
    intro kv hkv
    rcases List.mem_cons.mp hkv with h | h
    · subst h
      show notSigned (s2l "encoding") = true
      decide
    · exact fmtArgs_keys_notSigned D kv h
  have hbasend : keysNodup ((s2l "encoding", percentDecode (percentEncode D.encoding)) ::
      fmtArgs D) := by
    cases hf : D.config_format with
    | none => simp [keysNodup, fmtArgs, hf]
    | some f => simp [keysNodup, fmtArgs, hf]; decide
  have hbuck : bucketize (((s2l "encoding", percentDecode (percentEncode D.encoding)) ::
      fmtArgs D) ++ D.headers.map (fun kv => ('+' :: kv.1, kv.2))) =
      ((s2l "encoding", percentDecode (percentEncode D.encoding)) :: fmtArgs D,
        [], D.headers) := by
    rw [bucketize_shape _ _ hbase, dictUpdate_nil_left _ hbasend,
      dictUpdate_nil_left _ hnd]
  have hfmt : (lookupL ((s2l "encoding", percentDecode (percentEncode D.encoding)) ::
      fmtArgs D) (s2l "format")).bind parseFormat = D.config_format := by
    simp only [lookupL]
    rw [if_neg (by decide), fmtArgs_lookup_format]
    cases hf : D.config_format with
    | none => rfl
    | some f => simp [parseFormat_formatChars]
  have hmerge : mergeHeaders [] D.headers = D.headers := by
    rw [mergeHeaders]
    exact dictUpdate_nil_left _ hnd
  have hu : url D = schemaStr D ++ ':' :: '/' :: '/' ::
      (authPart D ++ (D.host ++ (portSegment D ++
        ('/' :: '?' :: urlencodeD (urlArgs D))))) := by
    simp only [url, List.append_assoc]
    rfl
  have hb1 : breakOnChar ':' (url D) = some (schemaStr D,
      '/' :: '/' :: (authPart D ++ (D.host ++ (portSegment D ++
        ('/' :: '?' :: urlencodeD (urlArgs D)))))) := by
    rw [hu]
    exact breakOnChar_append (schemaStr_no_colon D) _
  have hslash : ('/' : Char) ∉ authPart D ++ (D.host ++ portSegment D) := by
    intro hm
    rcases List.mem_append.mp hm with hm | hm
    · exact authPart_no_sep D (by decide) (by decide) (by decide) (by decide) hm
    · rcases List.mem_append.mp hm with hm | hm
      · exact not_mem_of_plain (by decide) hhost2 hm
      · exact portSegment_no_sep D (by decide) (by decide) hm
  have hmid : authPart D ++ (D.host ++ (portSegment D ++
      ('/' :: '?' :: urlencodeD (urlArgs D)))) =
      (authPart D ++ (D.host ++ portSegment D)) ++
        '/' :: '?' :: urlencodeD (urlArgs D) := by
    simp [List.append_assoc]
  have hb2 : breakOnChar '/' (authPart D ++ (D.host ++ (portSegment D ++
      ('/' :: '?' :: urlencodeD (urlArgs D))))) =
      some (authPart D ++ (D.host ++ portSegment D),
        '?' :: urlencodeD (urlArgs D)) := by
    rw [hmid]
    exact breakOnChar_append hslash _
  have hb3 : breakOnChar '?' ('?' :: urlencodeD (urlArgs D)) =
      some ([], urlencodeD (urlArgs D)) := by
    simp [breakOnChar]
  have hcolonhost : (':' : Char) ∉ D.host := not_mem_of_plain (by decide) hhost2
  have hpairs2 : (splitOnChar '&' (urlencodeD (urlArgs D))).map parseQueryPair =
      (s2l "encoding", percentDecode (percentEncode D.encoding)) ::
        (fmtArgs D ++ D.headers.map (fun kv => ('+' :: kv.1, kv.2))) := by
    rw [hpairs, List.cons_append]
  have hbuck2 : bucketize ((s2l "encoding", percentDecode (percentEncode D.encoding)) ::
      (fmtArgs D ++ D.headers.map (fun kv => ('+' :: kv.1, kv.2)))) =
      ((s2l "encoding", percentDecode (percentEncode D.encoding)) :: fmtArgs D,
        [], D.headers) := by
    rw [← List.cons_append]
    exact hbuck
  have hatHP : ('@' : Char) ∉ D.host ++ portSegment D := by
    intro hm
    rcases List.mem_append.mp hm with hm | hm
    · exact not_mem_of_plain (by decide) hhost2 hm
    · exact portSegment_no_sep D (by decide) (by decide) hm
  cases hport : D.port with
  | none =>
    have hPS : portSegment D = [] := by simp [portSegment, hport]
    cases htu : truthyS D.user with
    | false =>
      have hb4 : breakOnChar '@' (authPart D ++ (D.host ++ portSegment D)) =
          none := by
        rw [authPart_empty D htu, List.nil_append]
        exact breakOnChar_not_mem hatHP
      have hb5 : breakOnChar ':' (authPart D ++ (D.host ++ portSegment D)) =
          none := by
        rw [authPart_empty D htu, List.nil_append, hPS, List.append_nil]
        exact breakOnChar_not_mem hcolonhost
      conv_lhs => simp [parse_url, parseUrlBase, hb1, hb2, hb3, hb4, hb5,
          hpairs2, hbuck2, hfmt, hmerge, hqne, hhost1, parseNatChars_natToChars]
      simp [hport, hPS, authPart_empty D htu]
    | true =>
      obtain ⟨U, hAeq, hUat⟩ := authPart_at_split D htu
      have hb4 : breakOnChar '@' (authPart D ++ (D.host ++ portSegment D)) =
          some (U, D.host ++ portSegment D) := by
        rw [hAeq]
        rw [show (U ++ ['@']) ++ (D.host ++ portSegment D) =
            U ++ '@' :: (D.host ++ portSegment D) by simp]
        exact breakOnChar_append hUat _
      have hb5 : breakOnChar ':' (D.host ++ portSegment D) = none := by
        rw [hPS, List.append_nil]
        exact breakOnChar_not_mem hcolonhost
      conv_lhs => simp [parse_url, parseUrlBase, hb1, hb2, hb3, hb4, hb5,
          hpairs2, hbuck2, hfmt, hmerge, hqne, hhost1, parseNatChars_natToChars]
      simp [hport, hPS]
  | some p =>
    by_cases hdef : p = defaultPort D.secure
    · -- default port: the canonical URL omits the segment
      have hPS : portSegment D = [] := by simp [portSegment, hport, hdef]
      cases htu : truthyS D.user with
      | false =>
        have hb4 : breakOnChar '@' (authPart D ++ (D.host ++ portSegment D)) =
            none := by
          rw [authPart_empty D htu, List.nil_append]
          exact breakOnChar_not_mem hatHP
        have hb5 : breakOnChar ':' (authPart D ++ (D.host ++ portSegment D)) =
            none := by
          rw [authPart_empty D htu, List.nil_append, hPS, List.append_nil]
          exact breakOnChar_not_mem hcolonhost
        conv_lhs => simp [parse_url, parseUrlBase, hb1, hb2, hb3, hb4, hb5,
            hpairs2, hbuck2, hfmt, hmerge, hqne, hhost1, parseNatChars_natToChars]
        simp [hport, hdef, hPS, authPart_empty D htu]
      | true =>
        obtain ⟨U, hAeq, hUat⟩ := authPart_at_split D htu
        have hb4 : breakOnChar '@' (authPart D ++ (D.host ++ portSegment D)) =
            some (U, D.host ++ portSegment D) := by
          rw [hAeq]
          rw [show (U ++ ['@']) ++ (D.host ++ portSegment D) =
              U ++ '@' :: (D.host ++ portSegment D) by simp]
          exact breakOnChar_append hUat _
        have hb5 : breakOnChar ':' (D.host ++ portSegment D) = none := by
          rw [hPS, List.append_nil]
          exact breakOnChar_not_mem hcolonhost
        conv_lhs => simp [parse_url, parseUrlBase, hb1, hb2, hb3, hb4, hb5,
            hpairs2, hbuck2, hfmt, hmerge, hqne, hhost1, parseNatChars_natToChars]
        simp [hport, hdef, hPS]

    · -- explicit non-default port: the segment survives the round trip
      have hPS : portSegment D = ':' :: natToChars p := by
        simp [portSegment, hport, hdef]
      cases htu : truthyS D.user with
      | false =>
        have hb4 : breakOnChar '@' (authPart D ++ (D.host ++ portSegment D)) =
            none := by
          rw [authPart_empty D htu, List.nil_append]
          exact breakOnChar_not_mem hatHP
        have hb5 : breakOnChar ':' (authPart D ++ (D.host ++ portSegment D)) =
            some (D.host, natToChars p) := by
          rw [authPart_empty D htu, List.nil_append, hPS]
          exact breakOnChar_append hcolonhost _
        conv_lhs => simp [parse_url, parseUrlBase, hb1, hb2, hb3, hb4, hb5,
            hpairs2, hbuck2, hfmt, hmerge, hqne, hhost1, parseNatChars_natToChars]
        simp [hport, hdef]
      | true =>
        obtain ⟨U, hAeq, hUat⟩ := authPart_at_split D htu
        have hb4 : breakOnChar '@' (authPart D ++ (D.host ++ portSegment D)) =
            some (U, D.host ++ portSegment D) := by
          rw [hAeq]
          rw [show (U ++ ['@']) ++ (D.host ++ portSegment D) =
              U ++ '@' :: (D.host ++ portSegment D) by simp]
          exact breakOnChar_append hUat _
        have hb5 : breakOnChar ':' (D.host ++ portSegment D) =
            some (D.host, natToChars p) := by
          rw [hPS]
          exact breakOnChar_append hcolonhost _
        conv_lhs => simp [parse_url, parseUrlBase, hb1, hb2, hb3, hb4, hb5,
            hpairs2, hbuck2, hfmt, hmerge, hqne, hhost1, parseNatChars_natToChars]
        simp [hport, hdef]


/-- C5: on a fetch, a set format override is used unconditionally and no
sniffing touches the state; without an override the Content-Type is
classified case-insensitively, YAML before TEXT, and a miss leaves the
previously configured default format untouched. -/
theorem c5_format_resolution (D : ConfigHTTP) (a : List Char)
    (post : Except TransportError Response) :
    (∀ f, D.config_format = some f →
      (ConfigHTTP.read D a post).finalState = D ∧
      resolvedFormat (ConfigHTTP.read D a post).finalState = some f) ∧
    (∀ r body, post = Except.ok r → r.status_code = 200 →
      D.max_buffer_size = 0 → r.contentResult = Except.ok body →
      D.config_format = none →
      ((mimeIsYaml ((ciLookup r.headers (s2l "Content-Type")).getD
          (s2l "application/octet-stream")) = true →
        (ConfigHTTP.read D a post).finalState.default_config_format =
          some ConfigFormat.yaml) ∧
       (mimeIsYaml ((ciLookup r.headers (s2l "Content-Type")).getD
          (s2l "application/octet-stream")) = false →
        mimeIsText ((ciLookup r.headers (s2l "Content-Type")).getD
          (s2l "application/octet-stream")) = true →
        (ConfigHTTP.read D a post).finalState.default_config_format =
          some ConfigFormat.text) ∧
       (mimeIsYaml ((ciLookup r.headers (s2l "Content-Type")).getD
          (s2l "application/octet-stream")) = false →
        mimeIsText ((ciLookup r.headers (s2l "Content-Type")).getD
          (s2l "application/octet-stream")) = false →
        (ConfigHTTP.read D a post).finalState = D))) := by
  constructor
  · intro f hf
    have h := read_finalState D a post
    have hstate : (ConfigHTTP.read D a post).finalState = D := by
      rcases h with h | ⟨hnone, _⟩
      · exact h
      · rw [hf] at hnone
        cases hnone
    refine ⟨hstate, ?_⟩
    rw [hstate, resolvedFormat, hf]
  · intro r body hpost hs hcap hbody hcfg
    subst hpost
    have hread : ConfigHTTP.read D a (Except.ok r) =
        readBody D (dictUpdate [(s2l "User-Agent", a)] D.headers) r := by
      unfold ConfigHTTP.read
      simp [hs, hcap]
    refine ⟨?_, ?_, ?_⟩
    · intro hy
      have hct : ((ciLookup r.headers (s2l "Content-Type")).getD
          (s2l "application/octet-stream")) ≠ [] := by
        intro he
        rw [he] at hy
        exact absurd hy (by decide)
      rw [hread]
      unfold readBody
      rw [hbody]
      simp [hcfg, hct, hy]
    · intro hy ht
      have hct : ((ciLookup r.headers (s2l "Content-Type")).getD
          (s2l "application/octet-stream")) ≠ [] := by
        intro he
        rw [he] at ht
        exact absurd ht (by decide)
      rw [hread]
      unfold readBody
      rw [hbody]
      simp [hcfg, hct, hy, ht]
    · intro hy ht
      rw [hread]
      unfold readBody
      rw [hbody]
      simp [hcfg, hy, ht]

/-- C6: the canonical URL omits the port segment exactly when the port is
absent or equals the scheme's default (80 for http, 443 for https), and
keeps ':port' for every other port. -/
theorem c6_port_omission (D : ConfigHTTP) :
    ((D.port = none ∨ D.port = some (defaultPort D.secure)) →
      url D = schemaStr D ++ s2l "://" ++ authPart D ++ D.host ++
        s2l "/?" ++ urlencodeD (urlArgs D)) ∧
    (∀ p, D.port = some p → p ≠ defaultPort D.secure →
      portSegment D = ':' :: natToChars p ∧
      url D = schemaStr D ++ s2l "://" ++ authPart D ++ D.host ++
        (':' :: natToChars p) ++ s2l "/?" ++ urlencodeD (urlArgs D)) := by
  constructor
  · intro h
    have hPS : portSegment D = [] := by
      rcases h with h | h <;> simp [portSegment, h]
    rw [url, hPS]
    simp
  · intro p hp hne
    have hPS : portSegment D = ':' :: natToChars p := by
      simp [portSegment, hp, hne]
    exact ⟨hPS, by rw [url, hPS]⟩

/-- C8: every fetch sends the request with the default User-Agent header
overlaid by the stored header dict, the stored headers winning on every
name collision (a stored User-Agent replaces the default one). -/
theorem c8_request_headers (D : ConfigHTTP) (a : List Char)
    (post : Except TransportError Response) (hnd : keysNodup D.headers) :
    (ConfigHTTP.read D a post).requestHeaders =
      dictUpdate [(s2l "User-Agent", a)] D.headers ∧
    ∀ k, lookupL (ConfigHTTP.read D a post).requestHeaders k =
      (lookupL D.headers k).orElse
        (fun _ => lookupL [(s2l "User-Agent", a)] k) := by
  refine ⟨read_requestHeaders D a post, ?_⟩
  intro k
  rw [read_requestHeaders D a post, lookupL_dictUpdate _ _ hnd]

/-- C10: on an HTTP-status failure, the diagnostic echo keeps at most
max_error_buffer_size bytes of the body, and the value returned to the
caller is the bare failure signal None, free of any body content. -/
theorem c10_error_echo_bounded (D : ConfigHTTP) (a : List Char)
    (r : Response) (hs : r.status_code ≠ 200) :
    (ConfigHTTP.read D a (Except.ok r)).result = Except.ok none ∧
    ∀ e, (ConfigHTTP.read D a (Except.ok r)).errorEcho = some e →
      e.length ≤ max_error_buffer_size := by
  have hread : ConfigHTTP.read D a (Except.ok r) =
      readErrorStatus D (dictUpdate [(s2l "User-Agent", a)] D.headers) r := by
    unfold ConfigHTTP.read
    simp [hs]
  rw [hread]
  unfold readErrorStatus
  split
  · cases hcr : r.contentResult with
    | error e => exact ⟨rfl, by intro e he; cases he⟩
    | ok body =>
      refine ⟨rfl, ?_⟩
      intro e he
      cases he
      simp
  · exact ⟨rfl, by intro e he; cases he⟩

/-- C9 (amended): url() mutates nothing (it is a pure function of the
state), and read() leaves every field unchanged except
default_config_format, which it reassigns only when no format override is
enforced and the response's Content-Type sniffs as YAML or TEXT. -/
theorem c9_frame_amended (D : ConfigHTTP) (a : List Char)
    (post : Except TransportError Response) :
    ((ConfigHTTP.read D a post).finalState.secure = D.secure ∧
     (ConfigHTTP.read D a post).finalState.host = D.host ∧
     (ConfigHTTP.read D a post).finalState.port = D.port ∧
     (ConfigHTTP.read D a post).finalState.user = D.user ∧
     (ConfigHTTP.read D a post).finalState.password = D.password ∧
     (ConfigHTTP.read D a post).finalState.fullpath = D.fullpath ∧
     (ConfigHTTP.read D a post).finalState.headers = D.headers ∧
     (ConfigHTTP.read D a post).finalState.config_format = D.config_format ∧
     (ConfigHTTP.read D a post).finalState.encoding = D.encoding ∧
     (ConfigHTTP.read D a post).finalState.verify_certificate =
        D.verify_certificate ∧
     (ConfigHTTP.read D a post).finalState.max_buffer_size =
        D.max_buffer_size) ∧
    (D.config_format ≠ none → (ConfigHTTP.read D a post).finalState = D) := by
  have h := read_finalState D a post
  constructor
  · rcases h with h | ⟨_, h | h⟩ <;> rw [h] <;>
      exact ⟨rfl, rfl, rfl, rfl, rfl, rfl, rfl, rfl, rfl, rfl, rfl⟩
  · intro hne
    rcases h with h | ⟨hnone, _⟩
    · exact h
    · exact absurd hnone hne

/-- C7: the final header set produced by parse_url is the minus bucket
overlaid by the plus bucket, the plus value winning on every key
collision. -/
theorem c7_header_overlay (u : List Char) (R : ParseResult)
    (h : parse_url u = some R) (hp : keysNodup R.qsdPlus) :
    ∀ k, lookupL R.headers k =
      (lookupL R.qsdPlus k).orElse (fun _ => lookupL R.qsdMinus k) := by
  intro k
  rw [parse_url] at h
  obtain ⟨R0, h0, hR⟩ := Option.map_eq_some'.mp h
  subst hR
  show lookupL (mergeHeaders R0.qsdMinus R0.qsdPlus) k =
    (lookupL R0.qsdPlus k).orElse (fun _ => lookupL R0.qsdMinus k)
  rw [mergeHeaders]
  exact lookupL_dictUpdate _ _ hp k

/-- A concrete object state shared by the concrete evaluations below. -/
def sampleState : ConfigHTTP :=
  { secure := false, host := s2l "h", port := none, user := none,
    password := none, fullpath := s2l "/", headers := [],
    config_format := none, default_config_format := some ConfigFormat.text,
    encoding := s2l "utf-8", verify_certificate := true, max_buffer_size := 0 }

/-- C1 (code bug): when the connection is established (requests.post
returned a response object) but reading the body raises a
RequestException — both on the success path and while echoing an error
body — the handler returns None without ever calling r.close(): the
connection is left open, not released exactly once. -/
theorem c1_transport_exception_never_closes :
    (ConfigHTTP.read sampleState (s2l "App") (Except.ok
      { status_code := 200, headers := [],
        contentResult := Except.error TransportError.requestException })).closes
      = 0 ∧
    (ConfigHTTP.read sampleState (s2l "App") (Except.ok
      { status_code := 200, headers := [],
        contentResult := Except.error TransportError.requestException })).result
      = Except.ok none ∧
    (ConfigHTTP.read sampleState (s2l "App") (Except.ok
      { status_code := 404, headers := [],
        contentResult := Except.error TransportError.requestException })).closes
      = 0 :=
  ⟨rfl, rfl, rfl⟩

/-- C2 (code bug): a success response without a Content-Length header,
fetched with a positive buffer cap, makes read() raise an uncaught
KeyError from r.headers['Content-Length'] instead of returning the
failure value. -/
theorem c2_missing_content_length_escapes :
    (ConfigHTTP.read { sampleState with max_buffer_size := 1024 } (s2l "App")
      (Except.ok
        { status_code := 200,
          headers := [(s2l "Content-Type", s2l "text/plain")],
          contentResult := Except.ok [104, 105] })).result =
      Except.error PyExc.keyError :=
  rfl

/-- C3 (code bug): the oversize guard compares the Content-Length header
value, a str, against the int cap with no conversion; under Python 3 this
raises an uncaught TypeError for every declared length — here 512, well
inside the 1024 cap, where the claim promises a success result. -/
theorem c3_content_length_compare_raises :
    (ConfigHTTP.read { sampleState with max_buffer_size := 1024 } (s2l "App")
      (Except.ok
        { status_code := 200,
          headers := [(s2l "Content-Length", s2l "512")],
          contentResult := Except.ok [104] })).result =
      Except.error PyExc.typeError :=
  rfl

/-- The state exhibiting the C4 round-trip failure: a non-root path and
the scheme-default port. -/
def roundtripState : ConfigHTTP :=
  { secure := true, host := s2l "h", port := some 443, user := none,
    password := none, fullpath := s2l "/cfg.yml", headers := [],
    config_format := none, default_config_format := none,
    encoding := s2l "utf-8", verify_certificate := true, max_buffer_size := 0 }

/-- C4 (counterexample): url() never emits self.fullpath (its format
string hard-codes '/'), so decoding the canonical URL of a state with
path '/cfg.yml' yields path '/'; the scheme-default port 443 is omitted
on encode and decodes as absent, not as 443. -/
theorem c4_roundtrip_counterexample :
    (parse_url (url roundtripState)).map (fun R => (R.fullpath, R.port)) =
      some (s2l "/", none) ∧
    roundtripState.fullpath = s2l "/cfg.yml" ∧
    roundtripState.port = some 443 ∧
    s2l "/" ≠ s2l "/cfg.yml" ∧
    (none : Option Nat) ≠ some 443 := by
  refine ⟨by decide, rfl, rfl, by decide, by decide⟩

/-- C9 (counterexample): a fetch with no override and Content-Type
text/yaml reassigns self.default_config_format from TEXT to YAML — the
object is not immutable across read(). -/
theorem c9_read_mutates_default_format :
    (ConfigHTTP.read sampleState (s2l "App") (Except.ok
      { status_code := 200,
        headers := [(s2l "Content-Type", s2l "text/yaml")],
        contentResult := Except.ok [104] })).finalState.default_config_format
      = some ConfigFormat.yaml ∧
    sampleState.default_config_format = some ConfigFormat.text ∧
    some ConfigFormat.yaml ≠ some ConfigFormat.text := by
  refine ⟨rfl, rfl, by decide⟩

/-- The decoded-URL value for the C7 witness. -/
def overlayResult : ParseResult :=
  { host := s2l "h", port := none, fullpath := s2l "/", user := none,
    password := none, qsd := [], qsdMinus := [(s2l "X-A", s2l "1")],
    qsdPlus := [(s2l "X-A", s2l "2"), (s2l "X-B", s2l "3")], format := none,
    headers := [(s2l "X-A", s2l "2"), (s2l "X-B", s2l "3")] }

theorem c7_header_overlay_witness :
    lookupL overlayResult.headers (s2l "X-A") = some (s2l "2") ∧
    lookupL overlayResult.headers (s2l "X-B") = some (s2l "3") := by
  have hp : parse_url (s2l "http://h/?-X-A=1&+X-A=2&+X-B=3") =
      some overlayResult := by decide
  have h := c7_header_overlay _ overlayResult hp (by decide)
  constructor
  · rw [h (s2l "X-A")]
    decide
  · rw [h (s2l "X-B")]
    decide

theorem c8_request_headers_witness :
    (ConfigHTTP.read
      { sampleState with
          headers := [(s2l "User-Agent", s2l "custom"), (s2l "X-Api", s2l "k")] }
      (s2l "App") (Except.error TransportError.requestException)).requestHeaders =
      dictUpdate [(s2l "User-Agent", s2l "App")]
        [(s2l "User-Agent", s2l "custom"), (s2l "X-Api", s2l "k")] ∧
    lookupL (ConfigHTTP.read
      { sampleState with
          headers := [(s2l "User-Agent", s2l "custom"), (s2l "X-Api", s2l "k")] }
      (s2l "App") (Except.error TransportError.requestException)).requestHeaders
      (s2l "User-Agent") = some (s2l "custom") := by
  have h := c8_request_headers
    { sampleState with
        headers := [(s2l "User-Agent", s2l "custom"), (s2l "X-Api", s2l "k")] }
    (s2l "App") (Except.error TransportError.requestException) (by decide)
  refine ⟨h.1, ?_⟩
  rw [h.2 (s2l "User-Agent")]
  decide

theorem c10_error_echo_witness :
    (ConfigHTTP.read sampleState (s2l "App") (Except.ok
      { status_code := 404, headers := [],
        contentResult := Except.ok [1, 2, 3] })).result = Except.ok none ∧
    ([1, 2, 3] : ByteL).length ≤ max_error_buffer_size := by
  have h := c10_error_echo_bounded sampleState (s2l "App")
    { status_code := 404, headers := [],
      contentResult := Except.ok [1, 2, 3] } (by decide)
  exact ⟨h.1, h.2 [1, 2, 3] rfl⟩

theorem c5_format_resolution_witness :
    (ConfigHTTP.read { sampleState with config_format := some ConfigFormat.text }
      (s2l "App") (Except.error TransportError.requestException)).finalState =
      { sampleState with config_format := some ConfigFormat.text } ∧
    (ConfigHTTP.read sampleState (s2l "App") (Except.ok
      { status_code := 200,
        headers := [(s2l "Content-Type", s2l "application/x-yaml")],
        contentResult := Except.ok [104] })).finalState.default_config_format =
      some ConfigFormat.yaml := by
  constructor
  · exact ((c5_format_resolution
      { sampleState with config_format := some ConfigFormat.text }
      (s2l "App") (Except.error TransportError.requestException)).1
      ConfigFormat.text rfl).1
  · exact (((c5_format_resolution sampleState (s2l "App") (Except.ok
      { status_code := 200,
        headers := [(s2l "Content-Type", s2l "application/x-yaml")],
        contentResult := Except.ok [104] })).2
      _ [104] rfl rfl rfl rfl rfl).1 (by decide))

/-- A secure state with the scheme-default port, for the C6 witness. -/
def secureState : ConfigHTTP :=
  { secure := true, host := s2l "h", port := some 443, user := none,
    password := none, fullpath := s2l "/", headers := [],
    config_format := none, default_config_format := none,
    encoding := s2l "utf-8", verify_certificate := true, max_buffer_size := 0 }

theorem c6_port_omission_witness :
    url secureState = s2l "https://h/?encoding=utf-8" ∧
    url { secureState with port := some 8443 } =
      s2l "https://h:8443/?encoding=utf-8" := by
  constructor
  · have h := (c6_port_omission secureState).1 (Or.inr (by decide))
    rw [h]
    decide
  · have h := ((c6_port_omission { secureState with port := some 8443 }).2
      8443 rfl (by decide)).2
    rw [h]
    decide

theorem c9_frame_witness :
    (ConfigHTTP.read { sampleState with config_format := some ConfigFormat.yaml }
      (s2l "App") (Except.error TransportError.requestException)).finalState =
      { sampleState with config_format := some ConfigFormat.yaml } ∧
    (ConfigHTTP.read sampleState (s2l "App")
      (Except.error TransportError.requestException)).finalState.host =
      s2l "h" := by
  constructor
  · exact (c9_frame_amended
      { sampleState with config_format := some ConfigFormat.yaml }
      (s2l "App") (Except.error TransportError.requestException)).2 (by decide)
  · exact (c9_frame_amended sampleState (s2l "App")
      (Except.error TransportError.requestException)).1.2.1

/-- A state whose fields satisfy the round-trip hypotheses, for the C4
witness. -/
def plainState : ConfigHTTP :=
  { secure := false, host := s2l "h", port := some 8080, user := none,
    password := none, fullpath := s2l "/", headers := [(s2l "X-A", s2l "1")],
    config_format := some ConfigFormat.yaml, default_config_format := none,
    encoding := s2l "utf-8", verify_certificate := true, max_buffer_size := 0 }

theorem c4_roundtrip_witness :
    (parse_url (url plainState)).map (fun R =>
        (R.host, R.headers, R.format, R.fullpath, R.port)) =
      some (s2l "h", [(s2l "X-A", s2l "1")], some ConfigFormat.yaml,
        s2l "/", some 8080) := by
  have h := parse_url_of_url plainState (by decide) (by decide) (by decide)
    (by decide)
  rw [h]
  rfl
